import Mathlib

/-!
Verification development for the User-Weaknesses-Analysis-API repository
(src/app.py).  The endpoint `get_user_weaknesses` fetches a user's
`test_results` rows and aggregates the embedded question attempts into a
ranked list of weak (subtopic, section) areas.

Shallow embedding notes:
* Python/JSON values reaching the aggregation loop are modelled by `PyVal`
  (numbers as integers; no claim involves fractional JSON numbers).
* `json.loads` is modelled abstractly: a string-valued `question_details`
  field either fails to decode (`JSONDecodeError`) or yields a decoded
  value; which concrete strings do which is irrelevant to the code, which
  only branches on success/failure.
* Python floats are modelled as exact rationals (ℚ).
* The dynamic errors the code can hit are modelled by `PyErr`; the code's
  `except (TypeError, KeyError)` catches exactly those two kinds, and the
  outer `except Exception` catches everything, including the
  `HTTPException(404)` raised inside the `try` block.
-/

/-- A Python/JSON value as it can appear in the `question_details` field of a
`test_results` row.  Numbers are modelled as integers. -/
inductive PyVal where
  | vstr (s : String)
  | vbool (b : Bool)
  | vint (n : Int)
  | vlist (xs : List PyVal)
  | vdict (es : List (String × PyVal))
  | vnone

/-- The kinds of Python exceptions the embedded code can raise.
`typeError` and `keyError` are the two caught by the per-record handler
(src/app.py line 118); `attributeError` (raised e.g. by calling `.get` on a
non-dict) and `valueError` (raised by unpacking a split with the wrong number
of parts, line 132) are not caught there and escape to the outer handler. -/
inductive PyErr where
  | typeError
  | keyError
  | attributeError
  | valueError
deriving DecidableEq, Repr

/-- Python truthiness, as used by `if is_correct:` (src/app.py line 111). -/
def pyTruthy : PyVal → Bool
  | .vstr s => s ≠ ""
  | .vbool b => b
  | .vint n => n ≠ 0
  | .vlist xs => ¬xs.isEmpty
  | .vdict es => ¬es.isEmpty
  | .vnone => false

/-- Python `str()` conversion, as applied by the f-string
`f"{subtopic} | {section}"` (src/app.py line 105).  Scalars are rendered as
Python renders them.  Containers (which Python would render via a recursive
`repr`) are abstracted to a fixed marker: no claim exercises a container-valued
`subtopic`/`section`, and a recursive rendering is irrelevant to every
statement below. -/
def pyStr : PyVal → String
  | .vstr s => s
  | .vbool true => "True"
  | .vbool false => "False"
  | .vint n => toString n
  | .vnone => "None"
  | .vlist _ => "<list value>"
  | .vdict _ => "<dict value>"

/-- Lookup in a Python dict, modelled as an insertion-ordered association
list with distinct keys. -/
def dictLookup : List (String × PyVal) → String → Option PyVal
  | [], _ => none
  | (k, v) :: rest, key => if k = key then some v else dictLookup rest key

/-- `q.get(key, dflt)` (src/app.py lines 101, 102, 108).  Only dicts have a
`.get` method; on any other value Python raises `AttributeError`, which the
per-record `except (TypeError, KeyError)` does NOT catch. -/
def pyGet (q : PyVal) (key : String) (dflt : PyVal) : Except PyErr PyVal :=
  match q with
  | .vdict es => .ok ((dictLookup es key).getD dflt)
  | _ => .error .attributeError

/-- Python iteration `for question in questions:` (src/app.py line 99).
Lists yield their elements, strings their one-character substrings, dicts
their keys (in insertion order); booleans, integers and `None` are not
iterable and raise `TypeError` (which IS caught by the per-record handler). -/
def pyIter : PyVal → Except PyErr (List PyVal)
  | .vlist xs => .ok xs
  | .vstr s => .ok (s.data.map fun c => .vstr (String.mk [c]))
  | .vdict es => .ok (es.map fun e => .vstr e.1)
  | .vbool _ => .error .typeError
  | .vint _ => .error .typeError
  | .vnone => .error .typeError

/-- One accumulator of `user_comprehensive_stats` (src/app.py line 85):
`defaultdict(lambda: {'correct': 0, 'incorrect': 0, 'total': 0})`. -/
structure Stats where
  correct : Nat
  incorrect : Nat
  total : Nat
deriving DecidableEq, Repr

/-- The `user_comprehensive_stats` mapping.  Python dicts preserve insertion
order, so it is modelled as an insertion-ordered association list. -/
abbrev StatsMap := List (String × Stats)

/-- Get-or-create-then-update on the stats mapping: the `defaultdict`
creates a zeroed accumulator on first access, and the update mutates it in
place (preserving insertion order); a fresh key is appended at the end. -/
def updStats (m : StatsMap) (k : String) (f : Stats → Stats) : StatsMap :=
  match m with
  | [] => [(k, f ⟨0, 0, 0⟩)]
  | (k', s) :: rest =>
    if k' = k then (k', f s) :: rest else (k', s) :: updStats rest k f

/-- The count update of src/app.py lines 111–116: increment `correct` or
`incorrect` according to the (truthiness of the) `isCorrect` value, and
increment `total` unconditionally. -/
def incrStats (is_correct : Bool) (s : Stats) : Stats :=
  if is_correct then
    { s with correct := s.correct + 1, total := s.total + 1 }
  else
    { s with incorrect := s.incorrect + 1, total := s.total + 1 }

/-- The group key `f"{subtopic} | {section}"` (src/app.py line 105). -/
def mkKey (subtopic sectionName : String) : String :=
  subtopic ++ " | " ++ sectionName

/-- The rendered subtopic of an attempt dict:
`question.get('subtopic', 'Unknown')` as it appears inside the f-string. -/
def attemptSubtopic (es : List (String × PyVal)) : String :=
  pyStr ((dictLookup es "subtopic").getD (.vstr "Unknown"))

/-- The rendered section of an attempt dict:
`question.get('section', 'Unknown')` as it appears inside the f-string. -/
def attemptSection (es : List (String × PyVal)) : String :=
  pyStr ((dictLookup es "section").getD (.vstr "Unknown"))

/-- The `comprehensive_key` an attempt dict is counted under. -/
def attemptKey (es : List (String × PyVal)) : String :=
  mkKey (attemptSubtopic es) (attemptSection es)

/-- The truthiness of `question.get('isCorrect', False)` (src/app.py
lines 108, 111). -/
def attemptIsCorrect (es : List (String × PyVal)) : Bool :=
  pyTruthy ((dictLookup es "isCorrect").getD (.vbool false))

/-- The body of the per-question loop, src/app.py lines 99–116, for one
`question`.  The three `.get` calls raise `AttributeError` on a non-dict
(before any count is updated); on a dict the counts are updated under the
joined key. -/
def processQuestion (m : StatsMap) (q : PyVal) : Except PyErr StatsMap :=
  match pyGet q "subtopic" (.vstr "Unknown") with
  | .error e => .error e
  | .ok subtopicVal =>
    match pyGet q "section" (.vstr "Unknown") with
    | .error e => .error e
    | .ok sectionVal =>
      match pyGet q "isCorrect" (.vbool false) with
      | .error e => .error e
      | .ok isCorrectVal =>
        .ok (updStats m (mkKey (pyStr subtopicVal) (pyStr sectionVal))
              (incrStats (pyTruthy isCorrectVal)))

/-- The per-question loop over one record's decoded question collection.
The accumulator is mutated in place, so when a question raises, the updates
made by the earlier questions of the same record persist: the result is the
mapping as updated so far, together with the exception if one was raised. -/
def processQuestions (m : StatsMap) : List PyVal → StatsMap × Option PyErr
  | [] => (m, none)
  | q :: rest =>
    match processQuestion m q with
    | .ok m' => processQuestions m' rest
    | .error e => (m, some e)

/-- The `question_details` field of one `test_results` row (src/app.py
line 90).  A string-valued field goes through `json.loads`, which either
fails (`strMalformed`, raising `JSONDecodeError`) or produces a decoded
value (`strDecoded`); a non-string field (`value`) is used as-is. -/
inductive QuestionDetails where
  | strMalformed (s : String)
  | strDecoded (v : PyVal)
  | value (v : PyVal)

/-- Processing of one test record, src/app.py lines 88–116: a string field
that fails to decode is skipped via `continue` (line 96); otherwise the
decoded/raw value is iterated and each question processed.  Returns the
updated mapping and the exception raised, if any. -/
def processRecord (m : StatsMap) (qd : QuestionDetails) : StatsMap × Option PyErr :=
  match qd with
  | .strMalformed _ => (m, none)
  | .strDecoded v | .value v =>
    match pyIter v with
    | .error e => (m, some e)
    | .ok qs => processQuestions m qs

/-- Whether an exception kind is caught by `except (TypeError, KeyError)`
(src/app.py line 118). -/
def caughtByRecordHandler : PyErr → Bool
  | .typeError => true
  | .keyError => true
  | .attributeError => false
  | .valueError => false

/-- The `for test in test_results:` loop, src/app.py lines 87–119.  A caught
exception only ends the current record's processing; an uncaught one
(e.g. `AttributeError`) aborts the whole aggregation. -/
def processAllRecords (m : StatsMap) : List QuestionDetails → Except PyErr StatsMap
  | [] => .ok m
  | qd :: rest =>
    match processRecord m qd with
    | (m', none) => processAllRecords m' rest
    | (m', some e) =>
      if caughtByRecordHandler e then processAllRecords m' rest else .error e

/-- The error-rate computation of src/app.py lines 122–126:
`(incorrect / total) * 100` when `total > 0`, else `0`.  The Python float is
modelled as an exact rational. -/
def errorRate (s : Stats) : ℚ :=
  if s.total > 0 then ((s.incorrect : ℚ) / (s.total : ℚ)) * 100 else 0

/-- Helper for `pySplitBar`: scans the character list left to right, cutting
at each non-overlapping occurrence of the three-character separator
`' '`, `'|'`, `' '`. -/
def splitBarAux : List Char → List Char → List (List Char)
  | ' ' :: '|' :: ' ' :: rest, acc => acc.reverse :: splitBarAux rest []
  | c :: rest, acc => splitBarAux rest (c :: acc)
  | [], acc => [acc.reverse]

/-- Python's `key.split(" | ")` (src/app.py line 132): split on every
non-overlapping occurrence of the literal separator, left to right. -/
def pySplitBar (s : String) : List String :=
  (splitBarAux s.data []).map fun cs => String.mk cs

/-- Response model `SubtopicWeakness` (src/app.py lines 39–45). -/
structure SubtopicWeakness where
  subtopic : String
  «section» : String
  error_rate : ℚ
  total_questions : Nat
  correct_answers : Nat
  incorrect_answers : Nat
deriving DecidableEq, Repr

/-- The emission loop, src/app.py lines 129–141: for every accumulator with
`total >= 1` (in insertion order), split the joined key back into
`subtopic, section` — Python's two-variable unpacking raises `ValueError`
unless the split has exactly two parts — and build the response record.
The error rate is the one computed by lines 122–126. -/
def buildWeaknesses : StatsMap → Except PyErr (List SubtopicWeakness)
  | [] => .ok []
  | (k, s) :: rest =>
    if s.total ≥ 1 then
      match pySplitBar k with
      | [st, sec] =>
        match buildWeaknesses rest with
        | .ok ws => .ok (⟨st, sec, errorRate s, s.total, s.correct, s.incorrect⟩ :: ws)
        | .error e => .error e
      | _ => .error .valueError
    else buildWeaknesses rest

/-- Stable insertion of a weakness into a descending-by-`error_rate` list:
the element goes before the first entry whose rate is ≤ its own, so that
among equal rates the earlier-encountered entry stays first. -/
def insertDesc (w : SubtopicWeakness) : List SubtopicWeakness → List SubtopicWeakness
  | [] => [w]
  | x :: xs =>
    if x.error_rate ≤ w.error_rate then w :: x :: xs else x :: insertDesc w xs

/-- `weaknesses.sort(key=lambda x: x.error_rate, reverse=True)` (src/app.py
line 144).  Python's sort is stable; the stable descending sort is the
unique permutation that is sorted descending by rate with ties kept in
original order, realised here by stable insertion sort. -/
def sortWeaknesses : List SubtopicWeakness → List SubtopicWeakness
  | [] => []
  | w :: ws => insertDesc w (sortWeaknesses ws)

/-- Response model `UserWeaknessResponse` (src/app.py lines 47–50). -/
structure UserWeaknessResponse where
  user_id : String
  weaknesses : List SubtopicWeakness
  total_areas_analyzed : Nat
deriving DecidableEq, Repr

/-- An exception escaping the `try` body: either the `HTTPException(404)`
raised at src/app.py line 82, or a dynamic Python error from the
processing/emission code. -/
inductive PyExc where
  | httpException (status : Nat) (detail : String)
  | pyError (e : PyErr)
deriving DecidableEq, Repr

/-- A short rendering of `str(e)` for the modelled exception kinds; the
exact interpolated text of Python's builtin-exception messages is abstracted
(no claim depends on it). -/
def pyErrMessage : PyErr → String
  | .typeError => "TypeError"
  | .keyError => "KeyError"
  | .attributeError => "AttributeError"
  | .valueError => "ValueError"

/-- `str(e)` as used at src/app.py line 153.  For a starlette/FastAPI
`HTTPException` this is `f"{status_code}: {detail}"`. -/
def excMessage : PyExc → String
  | .httpException status detail => toString status ++ ": " ++ detail
  | .pyError e => pyErrMessage e

/-- The HTTP outcome of one request: a 200 with a response body, or an
`HTTPException` with a status code and detail message. -/
inductive EndpointResult where
  | ok (r : UserWeaknessResponse)
  | httpError (status : Nat) (detail : String)
deriving DecidableEq, Repr

/-- The HTTP status code of an endpoint outcome. -/
def EndpointResult.statusCode : EndpointResult → Nat
  | .ok _ => 200
  | .httpError status _ => status

/-- The `try` body of `get_user_weaknesses`, src/app.py lines 71–150: 404 on
an empty fetch result (raised as an exception INSIDE the `try`), then
aggregation, error-rate computation, emission and the stable descending
sort; `total_areas_analyzed` is the length of the sorted list. -/
def get_user_weaknesses_body (user_id : String) (test_results : List QuestionDetails) :
    Except PyExc UserWeaknessResponse :=
  if test_results.isEmpty then
    .error (.httpException 404 ("No onboarding test data found for user " ++ user_id))
  else
    match processAllRecords [] test_results with
    | .error e => .error (.pyError e)
    | .ok m =>
      match buildWeaknesses m with
      | .error e => .error (.pyError e)
      | .ok ws =>
        .ok ⟨user_id, sortWeaknesses ws, (sortWeaknesses ws).length⟩

/-- The whole endpoint handler `get_user_weaknesses` (src/app.py
lines 60–153).  The rows are abstracted to their `question_details` field —
the only column the code reads (the fetch itself, an external service, is
the input).  The `except Exception` at line 152 catches EVERY exception
escaping the body — including the `HTTPException(404)` raised at line 82 —
and re-raises it as a 500 with the stringified original exception. -/
def get_user_weaknesses (user_id : String) (test_results : List QuestionDetails) :
    EndpointResult :=
  match get_user_weaknesses_body user_id test_results with
  | .ok r => .ok r
  | .error e =>
    .httpError 500 ("Error analyzing user weaknesses: " ++ excMessage e)

/-- A question value that the per-question loop processes without raising:
a dict. -/
def isAttemptDict : PyVal → Bool
  | .vdict _ => true
  | _ => false

/-- A record that the per-record handler disposes of cleanly: either its
string field fails to decode (clean `continue`), or its value is not
iterable (`TypeError`, caught), or every iterated element is a dict (fully
processed).  Records outside this class raise `AttributeError`, which
escapes the handler. -/
def recordSafe : QuestionDetails → Bool
  | .strMalformed _ => true
  | .strDecoded v | .value v =>
    match pyIter v with
    | .error _ => true
    | .ok qs => qs.all isAttemptDict

/-- A record that is not skipped by the loop: its question collection
decodes and is iterable. -/
def recordContributes : QuestionDetails → Bool
  | .strMalformed _ => false
  | .strDecoded v | .value v =>
    match pyIter v with
    | .error _ => false
    | .ok _ => true

/-- A fully well-formed attempt: a dict whose joined group key splits back
into exactly two parts (so the emission-time unpacking succeeds). -/
def wellFormedAttempt : PyVal → Bool
  | .vdict es => (pySplitBar (attemptKey es)).length = 2
  | _ => false

/-- A fully well-formed record: its question collection is a (decoded) list
all of whose elements are well-formed attempts. -/
def wellFormedRecord : QuestionDetails → Bool
  | .strDecoded (.vlist qs) => qs.all wellFormedAttempt
  | .value (.vlist qs) => qs.all wellFormedAttempt
  | _ => false

/-- The number of question attempts a record carries (its decoded list
length; 0 for anything that is not a decoded list). -/
def recordAttempts : QuestionDetails → Nat
  | .strDecoded (.vlist qs) => qs.length
  | .value (.vlist qs) => qs.length
  | _ => 0

/-! ### Basic lemmas about the aggregation step -/

/-- On an attempt dict, one question-loop iteration counts the attempt under
its joined key. -/
theorem processQuestion_vdict (m : StatsMap) (es : List (String × PyVal)) :
    processQuestion m (.vdict es) =
      .ok (updStats m (attemptKey es) (incrStats (attemptIsCorrect es))) := rfl

/-- A successful question-loop iteration can only come from an attempt dict,
and then performs the keyed count update. -/
theorem processQuestion_ok_shape {m m' : StatsMap} {q : PyVal}
    (h : processQuestion m q = .ok m') :
    ∃ es, q = .vdict es ∧
      m' = updStats m (attemptKey es) (incrStats (attemptIsCorrect es)) := by
  cases q <;> simp [processQuestion, pyGet] at h
  case vdict es => exact ⟨es, rfl, h.symm⟩

/-- Generic preservation of an entry-wise property under the
get-or-create-then-update operation. -/
theorem updStats_forall {P : String × Stats → Prop} {m : StatsMap} {k : String}
    {f : Stats → Stats} (h : ∀ e ∈ m, P e) (h0 : P (k, f ⟨0, 0, 0⟩))
    (hf : ∀ s, P (k, s) → P (k, f s)) :
    ∀ e ∈ updStats m k f, P e := by
  induction m with
  | nil => simpa [updStats] using h0
  | cons hd tl ih =>
    obtain ⟨k', s⟩ := hd
    by_cases hk : k' = k
    · subst hk
      simp only [updStats, if_pos rfl]
      intro e he
      rcases List.mem_cons.1 he with rfl | he
      · exact hf s (h _ (List.mem_cons_self _ _))
      · exact h _ (List.mem_cons_of_mem _ he)
    · simp only [updStats, if_neg hk]
      intro e he
      rcases List.mem_cons.1 he with rfl | he
      · exact h _ (List.mem_cons_self _ _)
      · exact ih (fun e' he' => h _ (List.mem_cons_of_mem _ he')) e he

/-- The per-accumulator invariant: counts add up and an accumulator exists
only once it has seen at least one attempt. -/
def StatsInv (s : Stats) : Prop :=
  s.correct + s.incorrect = s.total ∧ 1 ≤ s.total

/-- Entry-wise invariant of the whole stats mapping. -/
def MapInv (m : StatsMap) : Prop := ∀ e ∈ m, StatsInv e.2

theorem statsInv_incrStats (b : Bool) (s : Stats)
    (h : s.correct + s.incorrect = s.total) : StatsInv (incrStats b s) := by
  cases b <;> simp [incrStats, StatsInv] <;> omega

theorem mapInv_updStats {m : StatsMap} {k : String} {b : Bool} (h : MapInv m) :
    MapInv (updStats m k (incrStats b)) := by
  refine updStats_forall h ?_ ?_
  · exact statsInv_incrStats b ⟨0, 0, 0⟩ rfl
  · exact fun s hs => statsInv_incrStats b s hs.1

theorem mapInv_processQuestion {m m' : StatsMap} {q : PyVal} (h : MapInv m)
    (hq : processQuestion m q = .ok m') : MapInv m' := by
  obtain ⟨es, -, rfl⟩ := processQuestion_ok_shape hq
  exact mapInv_updStats h

theorem mapInv_processQuestions {qs : List PyVal} {m : StatsMap} (h : MapInv m) :
    MapInv (processQuestions m qs).1 := by
  induction qs generalizing m with
  | nil => simpa [processQuestions] using h
  | cons q rest ih =>
    cases hq : processQuestion m q with
    | ok m' => simpa [processQuestions, hq] using ih (mapInv_processQuestion h hq)
    | error e => simpa [processQuestions, hq] using h

theorem mapInv_processRecord {qd : QuestionDetails} {m : StatsMap} (h : MapInv m) :
    MapInv (processRecord m qd).1 := by
  cases qd with
  | strMalformed s => simpa [processRecord] using h
  | strDecoded v =>
    cases hv : pyIter v with
    | ok qs => simpa [processRecord, hv] using mapInv_processQuestions h
    | error e => simpa [processRecord, hv] using h
  | value v =>
    cases hv : pyIter v with
    | ok qs => simpa [processRecord, hv] using mapInv_processQuestions h
    | error e => simpa [processRecord, hv] using h

theorem mapInv_processAllRecords {ts : List QuestionDetails} {m m' : StatsMap}
    (h : MapInv m) (heq : processAllRecords m ts = .ok m') : MapInv m' := by
  induction ts generalizing m with
  | nil =>
    simp only [processAllRecords] at heq
    exact Except.ok.inj heq ▸ h
  | cons qd rest ih =>
    have hrec : MapInv (processRecord m qd).1 := mapInv_processRecord h
    cases hr : processRecord m qd with
    | mk m1 err =>
      rw [hr] at hrec
      cases err with
      | none =>
        simp only [processAllRecords, hr] at heq
        exact ih hrec heq
      | some e =>
        simp only [processAllRecords, hr] at heq
        by_cases hc : caughtByRecordHandler e = true
        · rw [if_pos hc] at heq
          exact ih hrec heq
        · rw [if_neg hc] at heq
          exact absurd heq (by simp)

/-- Every emitted `SubtopicWeakness` carries its accumulator's counts and the
error rate computed from them. -/
theorem buildWeaknesses_mem {m : StatsMap} {ws : List SubtopicWeakness}
    (hinv : MapInv m) (hb : buildWeaknesses m = .ok ws) :
    ∀ w ∈ ws,
      w.correct_answers + w.incorrect_answers = w.total_questions ∧
      1 ≤ w.total_questions ∧
      w.error_rate = errorRate ⟨w.correct_answers, w.incorrect_answers, w.total_questions⟩ := by
  induction m generalizing ws with
  | nil =>
    simp only [buildWeaknesses] at hb
    simp [← Except.ok.inj hb]
  | cons hd tl ih =>
    obtain ⟨k, s⟩ := hd
    have hs : StatsInv s := hinv (k, s) (List.mem_cons_self _ _)
    have htl : MapInv tl := fun e he => hinv e (List.mem_cons_of_mem _ he)
    have ht : s.total ≥ 1 := hs.2
    simp only [buildWeaknesses, if_pos ht] at hb
    match hsp : pySplitBar k with
    | [] => rw [hsp] at hb; exact absurd hb (by simp)
    | [st] => rw [hsp] at hb; exact absurd hb (by simp)
    | st :: sec :: u :: v => rw [hsp] at hb; exact absurd hb (by simp)
    | [st, sec] =>
      rw [hsp] at hb
      cases hrest : buildWeaknesses tl with
      | error e => rw [hrest] at hb; exact absurd hb (by simp)
      | ok ws' =>
        rw [hrest] at hb
        have hws : ws = ⟨st, sec, errorRate s, s.total, s.correct, s.incorrect⟩ :: ws' :=
          (Except.ok.inj hb).symm
        subst hws
        intro w hw
        rcases List.mem_cons.1 hw with rfl | hw
        · exact ⟨hs.1, hs.2, rfl⟩
        · exact ih htl hrest w hw

/-! ### Lemmas about the stable descending sort -/

theorem insertDesc_perm (w : SubtopicWeakness) (l : List SubtopicWeakness) :
    (insertDesc w l).Perm (w :: l) := by
  induction l with
  | nil => simp [insertDesc]
  | cons x xs ih =>
    by_cases hc : x.error_rate ≤ w.error_rate
    · simp [insertDesc, if_pos hc]
    · simp only [insertDesc, if_neg hc]
      exact (ih.cons x).trans (List.Perm.swap w x xs)

theorem sortWeaknesses_perm (l : List SubtopicWeakness) :
    (sortWeaknesses l).Perm l := by
  induction l with
  | nil => simp [sortWeaknesses]
  | cons w ws ih =>
    exact (insertDesc_perm w (sortWeaknesses ws)).trans (ih.cons w)

/-- Descending-by-`error_rate` order between two weaknesses. -/
def RateGE (a b : SubtopicWeakness) : Prop := b.error_rate ≤ a.error_rate

/-- Unfolding equation for `insertDesc` on a non-empty list. -/
theorem insertDesc_cons (w x : SubtopicWeakness) (xs : List SubtopicWeakness) :
    insertDesc w (x :: xs) =
      if x.error_rate ≤ w.error_rate then w :: x :: xs else x :: insertDesc w xs := rfl

theorem insertDesc_pairwise {w : SubtopicWeakness} {l : List SubtopicWeakness}
    (h : l.Pairwise RateGE) : (insertDesc w l).Pairwise RateGE := by
  induction l with
  | nil => simp [insertDesc, RateGE]
  | cons x xs ih =>
    rw [List.pairwise_cons] at h
    by_cases hc : x.error_rate ≤ w.error_rate
    · rw [insertDesc_cons, if_pos hc, List.pairwise_cons, List.pairwise_cons]
      refine ⟨?_, h.1, h.2⟩
      intro y hy
      rcases List.mem_cons.1 hy with rfl | hy2
      · exact hc
      · exact le_trans (h.1 y hy2) hc
    · rw [insertDesc_cons, if_neg hc, List.pairwise_cons]
      refine ⟨?_, ih h.2⟩
      intro y hy
      rcases List.mem_cons.1 ((insertDesc_perm w xs).mem_iff.1 hy) with rfl | hy2
      · exact le_of_lt (lt_of_not_le hc)
      · exact h.1 y hy2

theorem sortWeaknesses_pairwise (l : List SubtopicWeakness) :
    (sortWeaknesses l).Pairwise RateGE := by
  induction l with
  | nil => simp [sortWeaknesses]
  | cons w ws ih => exact insertDesc_pairwise ih

/-- Inserting an element does not disturb the relative order of the entries
holding any other fixed rate, and puts the new element in front of the
entries holding its own rate. -/
theorem insertDesc_filter (q : ℚ) (w : SubtopicWeakness) (l : List SubtopicWeakness) :
    (insertDesc w l).filter (fun x => decide (x.error_rate = q)) =
      if w.error_rate = q then
        w :: l.filter (fun x => decide (x.error_rate = q))
      else l.filter (fun x => decide (x.error_rate = q)) := by
  induction l with
  | nil => by_cases hw : w.error_rate = q <;> simp [insertDesc, hw]
  | cons x xs ih =>
    by_cases hc : x.error_rate ≤ w.error_rate
    · rw [insertDesc_cons, if_pos hc]
      by_cases hw : w.error_rate = q <;> simp [List.filter, hw]
    · rw [insertDesc_cons, if_neg hc]
      by_cases hx : x.error_rate = q
      · have hw : ¬w.error_rate = q := by
          intro hw
          exact hc (le_of_eq (hx.trans hw.symm))
        simp [List.filter, hx, hw, ih]
      · by_cases hw : w.error_rate = q <;> simp [List.filter, hx, hw, ih]

/-- The stable sort preserves, for every rate value, the original relative
order of the entries holding that rate. -/
theorem sortWeaknesses_filter (q : ℚ) (l : List SubtopicWeakness) :
    (sortWeaknesses l).filter (fun x => decide (x.error_rate = q)) =
      l.filter (fun x => decide (x.error_rate = q)) := by
  induction l with
  | nil => simp [sortWeaknesses]
  | cons w ws ih =>
    rw [sortWeaknesses, insertDesc_filter]
    by_cases hw : w.error_rate = q <;> simp [List.filter, hw, ih]

/-! ### Inversion of a successful endpoint response -/

/-- A 200 response arises exactly from a non-empty fetch, a fully successful
aggregation and a fully successful emission, followed by the stable sort. -/
theorem get_ok_inversion {uid : String} {ts : List QuestionDetails}
    {r : UserWeaknessResponse} (h : get_user_weaknesses uid ts = .ok r) :
    ∃ m ws, processAllRecords [] ts = .ok m ∧ buildWeaknesses m = .ok ws ∧
      r = ⟨uid, sortWeaknesses ws, (sortWeaknesses ws).length⟩ := by
  unfold get_user_weaknesses at h
  split at h
  next r' heq =>
    obtain rfl : r' = r := by injection h
    unfold get_user_weaknesses_body at heq
    split at heq
    next => exact absurd heq (by simp)
    next =>
      split at heq
      next e hp => exact absurd heq (by simp)
      next m hp =>
        split at heq
        next e hb => exact absurd heq (by simp)
        next ws hb => exact ⟨m, ws, hp, hb, (Except.ok.inj heq).symm⟩
  next e heq => simp at h

/-! ### Claims C10, C6, C7 -/

/-- C10: every emitted WeaknessStat satisfies total_questions >= 1 and
correct_answers + incorrect_answers = total_questions; an accumulator is only
created when its first attempt is seen, so no emitted group can have
total 0. -/
theorem c10_emitted_stats_invariant (uid : String) (ts : List QuestionDetails)
    (r : UserWeaknessResponse) (h : get_user_weaknesses uid ts = .ok r) :
    ∀ w ∈ r.weaknesses,
      1 ≤ w.total_questions ∧
      w.correct_answers + w.incorrect_answers = w.total_questions := by
  obtain ⟨m, ws, hp, hb, rfl⟩ := get_ok_inversion h
  intro w hw
  have hw' : w ∈ ws := (sortWeaknesses_perm ws).subset hw
  have hinv : MapInv m :=
    mapInv_processAllRecords (fun e he => absurd he (List.not_mem_nil e)) hp
  have hmem := buildWeaknesses_mem hinv hb w hw'
  exact ⟨hmem.2.1, hmem.1⟩

def c10w_record : QuestionDetails :=
  .value (.vlist [.vdict [("subtopic", .vstr "Geometry"), ("section", .vstr "Math"),
                          ("isCorrect", .vbool true)]])

def c10w_weakness : SubtopicWeakness :=
  ⟨"Geometry", "Math", errorRate ⟨1, 0, 1⟩, 1, 1, 0⟩

/-- Witness for C10 at a concrete one-record input. -/
theorem c10_witness :
    1 ≤ c10w_weakness.total_questions ∧
    c10w_weakness.correct_answers + c10w_weakness.incorrect_answers =
      c10w_weakness.total_questions :=
  c10_emitted_stats_invariant "u10" [c10w_record] ⟨"u10", [c10w_weakness], 1⟩ rfl
    c10w_weakness (List.mem_singleton_self _)

/-- C6: for every emitted group, error_rate equals
100 * incorrect_answers / total_questions (exactly, floats being modelled as
rationals), and error_rate lies in [0, 100]. -/
theorem c6_error_rate_formula (uid : String) (ts : List QuestionDetails)
    (r : UserWeaknessResponse) (h : get_user_weaknesses uid ts = .ok r) :
    ∀ w ∈ r.weaknesses,
      w.error_rate = 100 * (w.incorrect_answers : ℚ) / (w.total_questions : ℚ) ∧
      0 ≤ w.error_rate ∧ w.error_rate ≤ 100 := by
  obtain ⟨m, ws, hp, hb, rfl⟩ := get_ok_inversion h
  intro w hw
  have hw' : w ∈ ws := (sortWeaknesses_perm ws).subset hw
  have hinv : MapInv m :=
    mapInv_processAllRecords (fun e he => absurd he (List.not_mem_nil e)) hp
  obtain ⟨hci, ht, hrate⟩ := buildWeaknesses_mem hinv hb w hw'
  have ht' : 0 < w.total_questions := ht
  have hform : errorRate ⟨w.correct_answers, w.incorrect_answers, w.total_questions⟩ =
      (w.incorrect_answers : ℚ) / (w.total_questions : ℚ) * 100 := by
    unfold errorRate
    exact if_pos ht'
  have ht0 : (0 : ℚ) < (w.total_questions : ℚ) := by exact_mod_cast ht'
  have hle : w.incorrect_answers ≤ w.total_questions := by omega
  have hles : (w.incorrect_answers : ℚ) ≤ (w.total_questions : ℚ) := by exact_mod_cast hle
  have hfrac : (w.incorrect_answers : ℚ) / (w.total_questions : ℚ) ≤ 1 :=
    (div_le_one ht0).2 hles
  refine ⟨?_, ?_, ?_⟩
  · rw [hrate, hform]; ring
  · rw [hrate, hform]; positivity
  · rw [hrate, hform]
    calc (w.incorrect_answers : ℚ) / (w.total_questions : ℚ) * 100 ≤ 1 * 100 :=
          mul_le_mul_of_nonneg_right hfrac (by norm_num)
      _ = 100 := by norm_num

def c6w_record : QuestionDetails :=
  .value (.vlist [.vdict [("subtopic", .vstr "Algebra"), ("section", .vstr "Math"),
                          ("isCorrect", .vbool true)],
                  .vdict [("subtopic", .vstr "Algebra"), ("section", .vstr "Math"),
                          ("isCorrect", .vbool false)]])

def c6w_weakness : SubtopicWeakness :=
  ⟨"Algebra", "Math", errorRate ⟨1, 1, 2⟩, 2, 1, 1⟩

/-- Witness for C6 at a concrete one-record input with one correct and one
incorrect attempt in a single group. -/
theorem c6_witness :
    c6w_weakness.error_rate =
      100 * (c6w_weakness.incorrect_answers : ℚ) / (c6w_weakness.total_questions : ℚ) ∧
    0 ≤ c6w_weakness.error_rate ∧ c6w_weakness.error_rate ≤ 100 :=
  c6_error_rate_formula "u6" [c6w_record] ⟨"u6", [c6w_weakness], 1⟩ rfl
    c6w_weakness (List.mem_singleton_self _)

/-- C7: in every successful response the weaknesses list is sorted by
error_rate in descending order: weaknesses[i].error_rate >=
weaknesses[i+1].error_rate for every index i. -/
theorem c7_sorted_descending (uid : String) (ts : List QuestionDetails)
    (r : UserWeaknessResponse) (h : get_user_weaknesses uid ts = .ok r)
    (i : ℕ) (hi : i + 1 < r.weaknesses.length) :
    (r.weaknesses.get ⟨i + 1, hi⟩).error_rate ≤
      (r.weaknesses.get ⟨i, Nat.lt_of_succ_lt hi⟩).error_rate := by
  obtain ⟨m, ws, hp, hb, rfl⟩ := get_ok_inversion h
  have hpw := sortWeaknesses_pairwise ws
  exact List.pairwise_iff_get.1 hpw _ _ (Fin.mk_lt_mk.2 (Nat.lt_succ_self i))

def c7w_record : QuestionDetails :=
  .value (.vlist [.vdict [("subtopic", .vstr "A"), ("section", .vstr "X")],
                  .vdict [("subtopic", .vstr "B"), ("section", .vstr "Y")]])

def c7w_a : SubtopicWeakness := ⟨"A", "X", errorRate ⟨0, 1, 1⟩, 1, 0, 1⟩

def c7w_b : SubtopicWeakness := ⟨"B", "Y", errorRate ⟨0, 1, 1⟩, 1, 0, 1⟩

/-- Witness for C7 at a concrete input producing two groups (with equal
rates, so the stable sort keeps emission order). -/
theorem c7_witness :
    (([c7w_a, c7w_b] : List SubtopicWeakness).get ⟨1, by decide⟩).error_rate ≤
      (([c7w_a, c7w_b] : List SubtopicWeakness).get ⟨0, by decide⟩).error_rate := by
  have h1 : sortWeaknesses [c7w_a, c7w_b] = [c7w_a, c7w_b] := by
    show insertDesc c7w_a (sortWeaknesses [c7w_b]) = _
    rw [show sortWeaknesses [c7w_b] = [c7w_b] from rfl]
    have hle : c7w_b.error_rate ≤ c7w_a.error_rate := le_of_eq rfl
    rw [insertDesc_cons, if_pos hle]
  have hok : get_user_weaknesses "u7" [c7w_record] = .ok ⟨"u7", [c7w_a, c7w_b], 2⟩ := by
    have h2 : get_user_weaknesses "u7" [c7w_record] =
        .ok ⟨"u7", sortWeaknesses [c7w_a, c7w_b],
             (sortWeaknesses [c7w_a, c7w_b]).length⟩ := rfl
    rw [h2, h1]
    rfl
  exact c7_sorted_descending "u7" [c7w_record] ⟨"u7", [c7w_a, c7w_b], 2⟩ hok 0 (by decide)

/-! ### Counting lemmas for the conservation property (C5) -/

/-- Total of `correct + incorrect` over all accumulators of the mapping. -/
def sumCI : StatsMap → Nat
  | [] => 0
  | e :: rest => e.2.correct + e.2.incorrect + sumCI rest

theorem incrStats_ci (b : Bool) (s : Stats) :
    (incrStats b s).correct + (incrStats b s).incorrect =
      s.correct + s.incorrect + 1 := by
  cases b <;> simp [incrStats] <;> omega

theorem sumCI_updStats (m : StatsMap) (k : String) (b : Bool) :
    sumCI (updStats m k (incrStats b)) = sumCI m + 1 := by
  induction m with
  | nil => simp [updStats, sumCI, incrStats_ci]
  | cons hd tl ih =>
    obtain ⟨k', s⟩ := hd
    by_cases hk : k' = k
    · simp only [updStats, if_pos hk, sumCI, incrStats_ci]
      omega
    · simp only [updStats, if_neg hk, sumCI, ih]
      omega

/-- Every key of the mapping splits back into exactly two parts. -/
def KeysLen2 (m : StatsMap) : Prop := ∀ e ∈ m, (pySplitBar e.1).length = 2

theorem isAttemptDict_shape {q : PyVal} (h : isAttemptDict q = true) :
    ∃ es, q = .vdict es := by
  cases q <;> simp [isAttemptDict] at h ⊢

theorem wellFormedAttempt_dict {q : PyVal} (h : wellFormedAttempt q = true) :
    isAttemptDict q = true := by
  cases q <;> simp [wellFormedAttempt, isAttemptDict] at h ⊢

/-- On a list of attempt dicts the question loop never raises and counts
exactly one attempt per element. -/
theorem processQuestions_dicts {qs : List PyVal} {m : StatsMap}
    (h : ∀ q ∈ qs, isAttemptDict q = true) :
    (processQuestions m qs).2 = none ∧
    sumCI (processQuestions m qs).1 = sumCI m + qs.length := by
  induction qs generalizing m with
  | nil => simp [processQuestions]
  | cons q rest ih =>
    obtain ⟨es, rfl⟩ := isAttemptDict_shape (h q (List.mem_cons_self _ _))
    rw [show processQuestions m (.vdict es :: rest) =
          processQuestions (updStats m (attemptKey es) (incrStats (attemptIsCorrect es))) rest
        from by rw [processQuestions, processQuestion_vdict]]
    obtain ⟨h1, h2⟩ := ih (fun q hq => h q (List.mem_cons_of_mem _ hq))
    refine ⟨h1, ?_⟩
    rw [h2, sumCI_updStats, List.length_cons]
    omega

/-- On a list of well-formed attempts, the question loop keeps every key of
the mapping cleanly splittable. -/
theorem processQuestions_keys {qs : List PyVal} {m : StatsMap}
    (h : ∀ q ∈ qs, wellFormedAttempt q = true) (hk : KeysLen2 m) :
    KeysLen2 (processQuestions m qs).1 := by
  induction qs generalizing m with
  | nil => simpa [processQuestions] using hk
  | cons q rest ih =>
    obtain ⟨es, rfl⟩ :=
      isAttemptDict_shape (wellFormedAttempt_dict (h q (List.mem_cons_self _ _)))
    rw [show processQuestions m (.vdict es :: rest) =
          processQuestions (updStats m (attemptKey es) (incrStats (attemptIsCorrect es))) rest
        from by rw [processQuestions, processQuestion_vdict]]
    refine ih (fun q hq => h q (List.mem_cons_of_mem _ hq)) ?_
    refine updStats_forall hk ?_ ?_
    · simpa [wellFormedAttempt] using h _ (List.mem_cons_self _ _)
    · intro s hs
      simpa [wellFormedAttempt] using h _ (List.mem_cons_self _ _)

/-- A well-formed record is processed without any exception, counts exactly
its attempts, and keeps all keys cleanly splittable. -/
theorem processRecord_wf {qd : QuestionDetails} {m : StatsMap}
    (h : wellFormedRecord qd = true) :
    (processRecord m qd).2 = none ∧
    sumCI (processRecord m qd).1 = sumCI m + recordAttempts qd ∧
    (KeysLen2 m → KeysLen2 (processRecord m qd).1) := by
  cases qd with
  | strMalformed s => simp [wellFormedRecord] at h
  | strDecoded v =>
    cases v <;> simp [wellFormedRecord] at h
    case vlist qs =>
      have hd : ∀ q ∈ qs, isAttemptDict q = true :=
        fun q hq => wellFormedAttempt_dict (h q hq)
      obtain ⟨h1, h2⟩ := processQuestions_dicts (m := m) hd
      exact ⟨h1, h2, fun hk => processQuestions_keys h hk⟩
  | value v =>
    cases v <;> simp [wellFormedRecord] at h
    case vlist qs =>
      have hd : ∀ q ∈ qs, isAttemptDict q = true :=
        fun q hq => wellFormedAttempt_dict (h q hq)
      obtain ⟨h1, h2⟩ := processQuestions_dicts (m := m) hd
      exact ⟨h1, h2, fun hk => processQuestions_keys h hk⟩

/-- A list of well-formed records aggregates successfully, counting exactly
the attempts of every record, and keeps keys cleanly splittable. -/
theorem processAllRecords_wf {ts : List QuestionDetails} {m : StatsMap}
    (h : ∀ qd ∈ ts, wellFormedRecord qd = true) :
    ∃ m', processAllRecords m ts = .ok m' ∧
      sumCI m' = sumCI m + (ts.map recordAttempts).sum ∧
      (KeysLen2 m → KeysLen2 m') := by
  induction ts generalizing m with
  | nil => exact ⟨m, rfl, by simp [processAllRecords], fun hk => hk⟩
  | cons qd rest ih =>
    obtain ⟨h1, h2, h3⟩ := processRecord_wf (m := m) (h qd (List.mem_cons_self _ _))
    obtain ⟨m', hm', hsum, hkeys⟩ :=
      ih (m := (processRecord m qd).1) (fun q hq => h q (List.mem_cons_of_mem _ hq))
    refine ⟨m', ?_, ?_, fun hk => hkeys (h3 hk)⟩
    · rw [processAllRecords]
      rw [show processRecord m qd = ((processRecord m qd).1, none) from
            Prod.ext rfl h1]
      exact hm'
    · rw [hsum, h2, List.map_cons, List.sum_cons]
      omega

/-- Under the accumulator invariant and cleanly splittable keys, emission
succeeds and preserves the total of `correct + incorrect`. -/
theorem buildWeaknesses_wf {m : StatsMap} (hinv : MapInv m) (hk : KeysLen2 m) :
    ∃ ws, buildWeaknesses m = .ok ws ∧
      (ws.map fun w => w.correct_answers + w.incorrect_answers).sum = sumCI m := by
  induction m with
  | nil => exact ⟨[], rfl, rfl⟩
  | cons hd tl ih =>
    obtain ⟨k, s⟩ := hd
    have hs : StatsInv s := hinv (k, s) (List.mem_cons_self _ _)
    have htl : MapInv tl := fun e he => hinv e (List.mem_cons_of_mem _ he)
    have hktl : KeysLen2 tl := fun e he => hk e (List.mem_cons_of_mem _ he)
    obtain ⟨a, b, hab⟩ := List.length_eq_two.1 (hk (k, s) (List.mem_cons_self _ _))
    obtain ⟨ws, hws, hsum⟩ := ih htl hktl
    refine ⟨⟨a, b, errorRate s, s.total, s.correct, s.incorrect⟩ :: ws, ?_, ?_⟩
    · rw [buildWeaknesses, if_pos hs.2, hab, hws]
    · simp only [List.map_cons, List.sum_cons, sumCI, hsum]

theorem sortWeaknesses_sum (ws : List SubtopicWeakness) :
    ((sortWeaknesses ws).map fun w => w.correct_answers + w.incorrect_answers).sum =
      (ws.map fun w => w.correct_answers + w.incorrect_answers).sum :=
  ((sortWeaknesses_perm ws).map _).sum_eq

/-- C5: for every non-empty, well-formed input set (records decoding to
lists of attempt dicts whose group keys split back cleanly), the request
succeeds and the sum of correct_answers + incorrect_answers over all emitted
groups equals the total number of QuestionAttempt entries across all input
records. -/
theorem c5_count_conservation (uid : String) (ts : List QuestionDetails)
    (hne : ts ≠ []) (hwf : ∀ qd ∈ ts, wellFormedRecord qd = true) :
    ∃ r, get_user_weaknesses uid ts = .ok r ∧
      (r.weaknesses.map fun w => w.correct_answers + w.incorrect_answers).sum =
        (ts.map recordAttempts).sum := by
  obtain ⟨m, hm, hsum, hkeys⟩ := processAllRecords_wf (m := []) hwf
  have hinv : MapInv m :=
    mapInv_processAllRecords (fun e he => absurd he (List.not_mem_nil e)) hm
  have hk : KeysLen2 m := hkeys (fun e he => absurd he (List.not_mem_nil e))
  obtain ⟨ws, hws, hsum2⟩ := buildWeaknesses_wf hinv hk
  refine ⟨⟨uid, sortWeaknesses ws, (sortWeaknesses ws).length⟩, ?_, ?_⟩
  · have hbody : get_user_weaknesses_body uid ts =
        .ok ⟨uid, sortWeaknesses ws, (sortWeaknesses ws).length⟩ := by
      unfold get_user_weaknesses_body
      rw [if_neg (by simpa [List.isEmpty_iff] using hne)]
      split
      next e heq => exact absurd (heq.symm.trans hm) (by simp)
      next m' heq =>
        obtain rfl : m' = m := Except.ok.inj (heq.symm.trans hm)
        split
        next e heq2 => exact absurd (heq2.symm.trans hws) (by simp)
        next ws' heq2 =>
          obtain rfl : ws' = ws := Except.ok.inj (heq2.symm.trans hws)
          rfl
    unfold get_user_weaknesses
    rw [hbody]
  · calc ((sortWeaknesses ws).map fun w => w.correct_answers + w.incorrect_answers).sum
        = (ws.map fun w => w.correct_answers + w.incorrect_answers).sum :=
          sortWeaknesses_sum ws
      _ = sumCI m := hsum2
      _ = (ts.map recordAttempts).sum := by rw [hsum]; simp [sumCI]

def c5w_record : QuestionDetails :=
  .strDecoded (.vlist [.vdict [("subtopic", .vstr "Stats"), ("section", .vstr "Math"),
                               ("isCorrect", .vbool true)],
                       .vdict [("subtopic", .vstr "Verbal"), ("section", .vstr "Lang"),
                               ("isCorrect", .vbool false)]])

/-- Witness for C5 at a concrete one-record, two-attempt input. -/
theorem c5_witness :
    ∃ r, get_user_weaknesses "u5" [c5w_record] = .ok r ∧
      (r.weaknesses.map fun w => w.correct_answers + w.incorrect_answers).sum =
        ([c5w_record].map recordAttempts).sum :=
  c5_count_conservation "u5" [c5w_record] (List.cons_ne_nil _ _) (by decide)

/-! ### Claim C2: malformed records -/

theorem pyIter_error {v : PyVal} {e : PyErr} (h : pyIter v = .error e) :
    e = .typeError := by
  cases v <;> simp [pyIter] at h <;> exact h.symm

theorem processAllRecords_cons_none {m m1 : StatsMap} {qd : QuestionDetails}
    {rest : List QuestionDetails} (h : processRecord m qd = (m1, none)) :
    processAllRecords m (qd :: rest) = processAllRecords m1 rest := by
  rw [processAllRecords, h]

theorem processAllRecords_cons_caught {m m1 : StatsMap} {qd : QuestionDetails}
    {rest : List QuestionDetails} {e : PyErr} (h : processRecord m qd = (m1, some e))
    (hc : caughtByRecordHandler e = true) :
    processAllRecords m (qd :: rest) = processAllRecords m1 rest := by
  rw [processAllRecords, h]
  exact if_pos hc

/-- Over records the per-record handler disposes of cleanly, the loop never
fails, and skipped records leave the accumulator untouched: aggregating the
whole list equals aggregating only the contributing records. -/
theorem processAllRecords_safe {ts : List QuestionDetails} {m : StatsMap}
    (h : ∀ qd ∈ ts, recordSafe qd = true) :
    processAllRecords m ts = processAllRecords m (ts.filter recordContributes) ∧
    ∃ m', processAllRecords m ts = .ok m' := by
  induction ts generalizing m with
  | nil => exact ⟨rfl, m, rfl⟩
  | cons qd rest ih =>
    have hs := h qd (List.mem_cons_self _ _)
    have hrest : ∀ q ∈ rest, recordSafe q = true :=
      fun q hq => h q (List.mem_cons_of_mem _ hq)
    cases qd with
    | strMalformed s =>
      have hstep : processAllRecords m (QuestionDetails.strMalformed s :: rest) =
          processAllRecords m rest := processAllRecords_cons_none rfl
      rw [hstep, List.filter_cons_of_neg (by simp [recordContributes])]
      exact ih hrest
    | strDecoded v =>
      cases hv : pyIter v with
      | error e =>
        obtain rfl : e = .typeError := pyIter_error hv
        have hpr : processRecord m (.strDecoded v) = (m, some PyErr.typeError) := by
          simp [processRecord, hv]
        have hstep : processAllRecords m (QuestionDetails.strDecoded v :: rest) =
            processAllRecords m rest := processAllRecords_cons_caught hpr rfl
        rw [hstep, List.filter_cons_of_neg (by simp [recordContributes, hv])]
        exact ih hrest
      | ok qs =>
        have hall : ∀ q ∈ qs, isAttemptDict q = true := by
          simp only [recordSafe, hv, List.all_eq_true] at hs
          exact hs
        obtain ⟨hnone, -⟩ := processQuestions_dicts (m := m) hall
        have hpr : processRecord m (.strDecoded v) = ((processQuestions m qs).1, none) := by
          simp only [processRecord, hv]
          exact Prod.ext rfl hnone
        rw [processAllRecords_cons_none hpr,
            List.filter_cons_of_pos (by simp [recordContributes, hv]),
            processAllRecords_cons_none hpr]
        exact ih hrest
    | value v =>
      cases hv : pyIter v with
      | error e =>
        obtain rfl : e = .typeError := pyIter_error hv
        have hpr : processRecord m (.value v) = (m, some PyErr.typeError) := by
          simp [processRecord, hv]
        have hstep : processAllRecords m (QuestionDetails.value v :: rest) =
            processAllRecords m rest := processAllRecords_cons_caught hpr rfl
        rw [hstep, List.filter_cons_of_neg (by simp [recordContributes, hv])]
        exact ih hrest
      | ok qs =>
        have hall : ∀ q ∈ qs, isAttemptDict q = true := by
          simp only [recordSafe, hv, List.all_eq_true] at hs
          exact hs
        obtain ⟨hnone, -⟩ := processQuestions_dicts (m := m) hall
        have hpr : processRecord m (.value v) = ((processQuestions m qs).1, none) := by
          simp only [processRecord, hv]
          exact Prod.ext rfl hnone
        rw [processAllRecords_cons_none hpr,
            List.filter_cons_of_pos (by simp [recordContributes, hv]),
            processAllRecords_cons_none hpr]
        exact ih hrest

/-- C2 (amended): the aggregation never fails because of records whose
question_details cannot be decoded or is not iterable or whose iterated
elements are all dicts — such malformed records are skipped and the result
equals the aggregation over the remaining contributing records; however (see
the counterexample) a decoded collection containing a non-dict element
raises an uncaught AttributeError that fails the whole request. -/
theorem c2_safe_malformed_records_skipped (ts : List QuestionDetails)
    (h : ∀ qd ∈ ts, recordSafe qd = true) :
    (∃ m, processAllRecords [] ts = .ok m) ∧
    processAllRecords [] ts = processAllRecords [] (ts.filter recordContributes) := by
  obtain ⟨hEq, hOk⟩ := processAllRecords_safe (m := []) h
  exact ⟨hOk, hEq⟩

def c2x_good : QuestionDetails :=
  .value (.vlist [.vdict [("subtopic", .vstr "Algebra"), ("section", .vstr "Math"),
                          ("isCorrect", .vbool true)]])

def c2x_bad : QuestionDetails := .value (.vlist [.vint 0])

/-- C2 counterexample: a record whose decoded collection contains a non-dict
element (here the integer 0) raises AttributeError, which the per-record
handler does not catch: the whole request fails with a 500 and the
well-formed record's data is not returned. -/
theorem c2_counterexample :
    processAllRecords [] [c2x_good, c2x_bad] = .error .attributeError ∧
    get_user_weaknesses "u2" [c2x_good, c2x_bad] =
      .httpError 500 "Error analyzing user weaknesses: AttributeError" :=
  ⟨rfl, rfl⟩

def c2w_records : List QuestionDetails :=
  [.strMalformed "oops not json",
   .value (.vlist [.vdict [("subtopic", .vstr "Geo"), ("isCorrect", .vbool false)]]),
   .value (.vint 7)]

/-- Witness for the amended C2 at a concrete mix of one unparseable record,
one well-formed record and one non-iterable record. -/
theorem c2_witness :
    (∃ m, processAllRecords [] c2w_records = .ok m) ∧
    processAllRecords [] c2w_records =
      processAllRecords [] (c2w_records.filter recordContributes) :=
  c2_safe_malformed_records_skipped c2w_records (by decide)

/-! ### Claims C8, C4, C9, C3, C1 -/

/-- C8: the aggregation is a pure function, so identical inputs yield
identical output; and among weaknesses with equal error_rate the sorted
output keeps the stable first-encounter (emission) order: restricting the
sorted list to any fixed rate value gives exactly the pre-sort emission
list restricted to that value. -/
theorem c8_deterministic_stable_ties (uid : String) (ts : List QuestionDetails)
    (m : StatsMap) (ws : List SubtopicWeakness) (q : ℚ)
    (hm : processAllRecords [] ts = .ok m) (hws : buildWeaknesses m = .ok ws) :
    get_user_weaknesses uid ts = get_user_weaknesses uid ts ∧
    (sortWeaknesses ws).filter (fun w => decide (w.error_rate = q)) =
      ws.filter (fun w => decide (w.error_rate = q)) :=
  ⟨rfl, sortWeaknesses_filter q ws⟩

def c8w_record : QuestionDetails :=
  .value (.vlist [.vdict [("subtopic", .vstr "P"), ("section", .vstr "Q")],
                  .vdict [("subtopic", .vstr "R"), ("section", .vstr "S")]])

def c8w_m : StatsMap := [("P | Q", ⟨0, 1, 1⟩), ("R | S", ⟨0, 1, 1⟩)]

def c8w_ws : List SubtopicWeakness :=
  [⟨"P", "Q", errorRate ⟨0, 1, 1⟩, 1, 0, 1⟩, ⟨"R", "S", errorRate ⟨0, 1, 1⟩, 1, 0, 1⟩]

/-- Witness for C8 at a concrete input producing two groups tied at the same
error rate. -/
theorem c8_witness :
    get_user_weaknesses "u8" [c8w_record] = get_user_weaknesses "u8" [c8w_record] ∧
    (sortWeaknesses c8w_ws).filter (fun w => decide (w.error_rate = errorRate ⟨0, 1, 1⟩)) =
      c8w_ws.filter (fun w => decide (w.error_rate = errorRate ⟨0, 1, 1⟩)) :=
  c8_deterministic_stable_ties "u8" [c8w_record] c8w_m c8w_ws (errorRate ⟨0, 1, 1⟩) rfl rfl

/-- C4 (amended): attempts are bucketed by the delimiter-joined string key
built from subtopic and section; when both attempts' keys split back
cleanly into their (subtopic, section) pair, key equality coincides with
pair equality, and the counting update is keyed precisely by this joined
key. -/
theorem c4_bucket_key_iff (es1 es2 : List (String × PyVal))
    (h1 : pySplitBar (attemptKey es1) = [attemptSubtopic es1, attemptSection es1])
    (h2 : pySplitBar (attemptKey es2) = [attemptSubtopic es2, attemptSection es2]) :
    (attemptKey es1 = attemptKey es2 ↔
      attemptSubtopic es1 = attemptSubtopic es2 ∧
      attemptSection es1 = attemptSection es2) ∧
    processQuestion [] (.vdict es1) =
      .ok (updStats [] (attemptKey es1) (incrStats (attemptIsCorrect es1))) := by
  refine ⟨⟨?_, ?_⟩, processQuestion_vdict [] es1⟩
  · intro hk
    have h3 : ([attemptSubtopic es1, attemptSection es1] : List String) =
        [attemptSubtopic es2, attemptSection es2] := by
      rw [← h1, ← h2, hk]
    injection h3 with ha h4
    injection h4 with hb _
    exact ⟨ha, hb⟩
  · rintro ⟨ha, hb⟩
    unfold attemptKey
    rw [ha, hb]

def c4x_es1 : List (String × PyVal) := [("subtopic", .vstr "A | B"), ("section", .vstr "C")]

def c4x_es2 : List (String × PyVal) := [("subtopic", .vstr "A"), ("section", .vstr "B | C")]

def c4x_record : QuestionDetails := .value (.vlist [.vdict c4x_es1, .vdict c4x_es2])

/-- C4 counterexample: two attempts with different (subtopic, section) pairs
collide into one single accumulator because a field contains the delimiter;
when the colliding key reaches the emission split, the two-variable
unpacking fails and the request becomes a 500, so the pair does not uniquely
identify a bucket. -/
theorem c4_counterexample :
    attemptKey c4x_es1 = attemptKey c4x_es2 ∧
    (attemptSubtopic c4x_es1, attemptSection c4x_es1) ≠
      (attemptSubtopic c4x_es2, attemptSection c4x_es2) ∧
    processAllRecords [] [c4x_record] = .ok [("A | B | C", ⟨0, 2, 2⟩)] ∧
    get_user_weaknesses "u4" [c4x_record] =
      .httpError 500 "Error analyzing user weaknesses: ValueError" := by
  refine ⟨rfl, ?_, rfl, rfl⟩
  decide

def c4w_es : List (String × PyVal) := [("subtopic", .vstr "Calc"), ("section", .vstr "Math")]

/-- Witness for the amended C4 at a concrete delimiter-clean attempt. -/
theorem c4_witness :
    (attemptKey c4w_es = attemptKey c4w_es ↔
      attemptSubtopic c4w_es = attemptSubtopic c4w_es ∧
      attemptSection c4w_es = attemptSection c4w_es) ∧
    processQuestion [] (.vdict c4w_es) =
      .ok (updStats [] (attemptKey c4w_es) (incrStats (attemptIsCorrect c4w_es))) :=
  c4_bucket_key_iff c4w_es c4w_es rfl rfl

/-- C9: an attempt with no subtopic key is rendered under subtopic
"Unknown", one with no section key under section "Unknown" (both missing →
bucket key "Unknown | Unknown"), and one with no isCorrect key is counted as
incorrect. -/
theorem c9_missing_field_defaults (es : List (String × PyVal)) (m : StatsMap) :
    (dictLookup es "subtopic" = none → attemptSubtopic es = "Unknown") ∧
    (dictLookup es "section" = none → attemptSection es = "Unknown") ∧
    (dictLookup es "subtopic" = none → dictLookup es "section" = none →
      attemptKey es = "Unknown | Unknown") ∧
    (dictLookup es "isCorrect" = none →
      processQuestion m (.vdict es) =
        .ok (updStats m (attemptKey es)
          (fun s => { s with incorrect := s.incorrect + 1, total := s.total + 1 }))) := by
  refine ⟨?_, ?_, ?_, ?_⟩
  · intro h
    unfold attemptSubtopic
    rw [h]
    rfl
  · intro h
    unfold attemptSection
    rw [h]
    rfl
  · intro h1 h2
    unfold attemptKey mkKey attemptSubtopic attemptSection
    rw [h1, h2]
    rfl
  · intro h
    rw [processQuestion_vdict]
    have hic : attemptIsCorrect es = false := by
      unfold attemptIsCorrect
      rw [h]
      rfl
    rw [hic]
    rfl

/-- Witness for C9 at the empty attempt dict (all three fields missing). -/
theorem c9_witness :
    attemptSubtopic [] = "Unknown" ∧ attemptSection [] = "Unknown" ∧
    attemptKey [] = "Unknown | Unknown" ∧
    processQuestion [] (.vdict []) =
      .ok (updStats [] (attemptKey [])
        (fun s => { s with incorrect := s.incorrect + 1, total := s.total + 1 })) :=
  ⟨(c9_missing_field_defaults [] []).1 rfl,
   (c9_missing_field_defaults [] []).2.1 rfl,
   (c9_missing_field_defaults [] []).2.2.1 rfl rfl,
   (c9_missing_field_defaults [] []).2.2.2 rfl⟩

/-- C3 counterexample: with a single unparseable-string record the endpoint
responds 200 with an empty weaknesses list, not the 404-equivalent outcome
the claim states. -/
theorem c3_counterexample :
    get_user_weaknesses "u3" [.strMalformed "plainly not json"] = .ok ⟨"u3", [], 0⟩ ∧
    (get_user_weaknesses "u3" [.strMalformed "plainly not json"]).statusCode = 200 :=
  ⟨rfl, rfl⟩

/-- C3 (amended): a record whose question_details string fails to decode
contributes zero attempts, and when it is the only record the endpoint
responds 200 with an empty weaknesses list and total_areas_analyzed = 0
rather than a 404. -/
theorem c3_unparseable_only_record (uid s : String) (m : StatsMap) :
    processRecord m (.strMalformed s) = (m, none) ∧
    get_user_weaknesses uid [.strMalformed s] = .ok ⟨uid, [], 0⟩ ∧
    (get_user_weaknesses uid [.strMalformed s]).statusCode ≠ 404 := by
  refine ⟨rfl, rfl, ?_⟩
  have hst : (get_user_weaknesses uid [.strMalformed s]).statusCode = 200 := rfl
  rw [hst]
  decide

/-- C1: for an empty fetch result the code builds an HTTPException(404) with
a descriptive message, but raises it inside its own try block, where the
except Exception at src/app.py line 152 catches it and re-raises a 500 whose
detail embeds the stringified 404 — so the endpoint responds 500, not 404. -/
theorem c1_empty_fetch_gives_500 :
    get_user_weaknesses "u1" [] =
      .httpError 500
        "Error analyzing user weaknesses: 404: No onboarding test data found for user u1" ∧
    (get_user_weaknesses "u1" []).statusCode ≠ 404 :=
  ⟨rfl, by decide⟩

/-- Witness for the amended C3 at a concrete unparseable record. -/
theorem c3_witness :
    processRecord [] (.strMalformed "w3 bad payload") = ([], none) ∧
    get_user_weaknesses "w3" [.strMalformed "w3 bad payload"] = .ok ⟨"w3", [], 0⟩ ∧
    (get_user_weaknesses "w3" [.strMalformed "w3 bad payload"]).statusCode ≠ 404 :=
  c3_unparseable_only_record "w3" "w3 bad payload" []
